import Mathlib

/-!
Verification of the Bakefile interpreter core against its specification.

This file gives a shallow embedding, in Lean 4, of the code under review:

* `src/src/bkl/expr.py` — the expression algebra (`Expr` class hierarchy and
  the functions `split`, `simplify`, `all_possible_values`);
* `src/bakefile/src/dependencies.py` — the incremental-dependency ledger
  (`needsUpdate`, `load`, `DEPS_FORMAT_VERSION`);
* `src/src/bkl/interpreter/builder.py` — the AST-to-model builder
  (`Builder.on_assignment`, `Builder.handle_children`).

Modelling conventions:

* Python machine state (the variable scopes, the ledger dictionaries, the
  file system) is passed explicitly; dictionaries become association lists.
* Source positions (`pos` attributes) carry no semantic weight in any of the
  verified operations and are omitted from the embedding.
* Fallible Python code (raised exceptions) becomes `Except`; where a claim is
  about the state left behind by a raised exception, the error value carries
  the state as it stood at the moment of the raise.
* `bkl/model.py` is not part of the sources under review; the scope and
  variable-lookup operations it provides are modelled from the specification
  (each such definition is marked `Modelled from the spec:`).
-/

namespace Bakefile

/-- Anchors of `PathExpr` (`expr.py`: `ANCHOR_SRCDIR`, `ANCHOR_TOP_SRCDIR`). -/
inductive Anchor where
  | srcdir
  | top_srcdir
deriving DecidableEq

/-- Operations of `BoolExpr` (`expr.py`: `BoolExpr.AND` … `BoolExpr.NOT`). -/
inductive BoolOp where
  | and
  | or
  | equal
  | notEqual
  | not
deriving DecidableEq

/-- The expression tree of `expr.py`.  One constructor per `Expr` subclass:
`LiteralExpr`, `BoolValueExpr`, `ListExpr`, `ConcatExpr`, `NullExpr`,
`ReferenceExpr`, `PathExpr`, `BoolExpr`, `IfExpr`.  A `ReferenceExpr` holds
the referenced variable's name; the scope handle it also carries in the
source is represented by the environment that is passed to the evaluation
functions below.  `BoolExpr`'s `right` operand is optional in the source
(`None` for the unary `NOT`), hence the `Option`.

The extra constructor `genObj` does not correspond to an `Expr` subclass: it
models the *Python generator object* that `all_possible_values` yields (not
expands) when it meets a `ReferenceExpr`; the payload is the expression whose
values the pending generator would produce.  No other constructor ever
produces it, and every `isinstance` chain of the source lets such a foreign
object fall through to its default branch, which is exactly how the
embedding's `match` catch-alls treat it. -/
inductive Expr where
  | literal (value : String)
  | boolValue (value : Bool)
  | list (items : List Expr)
  | concat (items : List Expr)
  | null
  | ref (var : String)
  | path (components : List Expr) (anchor : Anchor)
  | boolE (op : BoolOp) (left : Expr) (right : Option Expr)
  | ifE (cond : Expr) (yes : Expr) (no : Expr)
  | genObj (pending : Expr)

/-- Errors raised by the expression-algebra functions (`error.py`'s `Error`
and the undefined-variable error raised by `get_variable_value`).  `outOfFuel`
is an artefact of the embedding: `split` recurses through variable references
and is given explicit fuel; no theorem below depends on fuel exhaustion. -/
inductive EvalErr where
  | cannotSplit (e : Expr)
  | undefinedVariable (name : String)
  | cannotEnumerate (e : Expr)
  | assertNestedList (e : Expr)
  | outOfFuel

/-- Modelled from the spec: the variable environment backing
`ReferenceExpr.get_value` (`model.py`'s `get_variable_value`, not under
review).  The spec (§3, §9) describes a Reference as a late-bound lookup of a
name against a model scope; the embedding flattens the scope into an
association list from names to values. -/
abbrev Env := List (String × Expr)

/-- Modelled from the spec: name lookup in the environment; `none` models the
undefined-variable error raised by `get_variable_value`. -/
def lookupEnv : Env → String → Option Expr
  | [], _ => none
  | (k, v) :: rest, x => if k = x then some v else lookupEnv rest x

/-- `ReferenceExpr.get_value` (`expr.py` lines 176–186): returns the value of
the referenced variable, raising if the reference cannot be resolved. -/
def get_value (env : Env) (var : String) : Except EvalErr Expr :=
  match lookupEnv env var with
  | some v => .ok v
  | none => .error (.undefinedVariable var)

/-- Splitting a character list at every occurrence of `sep`; empty segments
are preserved and the empty list yields one empty segment. -/
def pySplitAux (sep : Char) : List Char → List (List Char)
  | [] => [[]]
  | c :: rest =>
    let r := pySplitAux sep rest
    if c = sep then [] :: r
    else
      match r with
      | [] => [[c]]
      | h :: t => (c :: h) :: t

/-- Python's `str.split(sep)` for a one-character separator: empty segments
are preserved and the empty string yields one empty segment. -/
def pySplit (s : String) (sep : Char) : List String :=
  (pySplitAux sep s.data).map (fun cs => { data := cs })

/-- The accumulator loop of `split`'s `ConcatExpr` case (`expr.py` lines
292–304): `out` is the Python `out` list; each child's segment list `i_out`
is spliced on, merging the last accumulated segment with the child's first
segment into a `ConcatExpr`.  (The `i_out = []` arm is unreachable: `split`
always produces at least one segment for any child a real `ConcatExpr` — whose
constructor asserts a non-empty item list — can hold.) -/
def spliceSegments (out i_out : List Expr) : List Expr :=
  match out.getLast? with
  | none => i_out
  | some last =>
    match i_out with
    | [] => out.dropLast
    | h :: t => out.dropLast ++ (Expr.concat [last, h] :: t)

mutual
/-- `split(e, sep)` (`expr.py` lines 276–309): splits expression `e` by the
one-character delimiter `sep`.  Literals are split on the string level,
references are dereferenced and split, concatenations are split childwise and
respliced across boundaries; anything else raises.  The `fuel` bounds the
depth of reference chains (the source would not terminate on a cyclic
reference either). -/
def split (env : Env) : Nat → Expr → Char → Except EvalErr (List Expr)
  | 0, _, _ => .error .outOfFuel
  | Nat.succ fuel, e, sep =>
    match e with
    | .literal v => .ok ((pySplit v sep).map Expr.literal)
    | .ref x =>
      match get_value env x with
      | .error err => .error err
      | .ok v => split env fuel v sep
    | .concat items =>
      match splitItems env fuel items sep with
      | .error err => .error err
      | .ok parts => .ok (parts.foldl spliceSegments [])
    | e => .error (.cannotSplit e)
termination_by fuel _ _ => (fuel, 0)

/-- The per-child splitting inside `split`'s `ConcatExpr` case (the calls
`split(i, sep)` of the loop on `expr.py` lines 293–294). -/
def splitItems (env : Env) : Nat → List Expr → Char → Except EvalErr (List (List Expr))
  | _, [], _ => .ok []
  | fuel, i :: rest, sep =>
    match split env fuel i sep with
    | .error err => .error err
    | .ok i_out =>
      match splitItems env fuel rest sep with
      | .error err => .error err
      | .ok parts => .ok (i_out :: parts)
termination_by fuel items _ => (fuel, items.length + 1)
end

/-- The literal-fusion loop of `simplify`'s `ConcatExpr` case (`expr.py`
lines 328–334): `out` starts as `[items[0]]` and each further item is either
merged into a trailing literal or appended. -/
def mergeLoop (out : List Expr) : List Expr → List Expr
  | [] => out
  | i :: rest =>
    match i, out.getLast? with
    | .literal v, some (.literal u) =>
        mergeLoop (out.dropLast ++ [Expr.literal (u ++ v)]) rest
    | _, _ => mergeLoop (out ++ [i]) rest

/-- `simplify`'s treatment of a `ConcatExpr`'s already-simplified items:
`out = [items[0]]` followed by the fusion loop over the rest.  (The source
never meets an empty item list here because `ConcatExpr.__init__` asserts
`len(items) > 0`.) -/
def mergeLiterals : List Expr → List Expr
  | [] => []
  | x :: xs => mergeLoop [x] xs

mutual
/-- `simplify(e)` (`expr.py` lines 313–347).  Lists and paths are simplified
childwise; concatenations are simplified childwise and adjacent literals
fused; for a `ReferenceExpr` the source computes `ref = e.get_value()` and
then tests `isinstance(e, LiteralExpr) or isinstance(e, ReferenceExpr)` — a
test on `e`, the reference itself, which in that branch is always true — so
the referenced value is returned unconditionally; every other variant is
returned unchanged. -/
def simplify (env : Env) : Expr → Except EvalErr Expr
  | .list items =>
    match simplifyList env items with
    | .error err => .error err
    | .ok its => .ok (.list its)
  | .path comps a =>
    match simplifyList env comps with
    | .error err => .error err
    | .ok its => .ok (.path its a)
  | .concat items =>
    match simplifyList env items with
    | .error err => .error err
    | .ok its => .ok (.concat (mergeLiterals its))
  | .ref x =>
    match get_value env x with
    | .error err => .error err
    -- the vacuously-true isinstance test on `e` selects `return ref`:
    | .ok r => .ok r
  | e => .ok e

/-- Childwise simplification of a list of expressions (the comprehensions on
`expr.py` lines 322, 324, 328). -/
def simplifyList (env : Env) : List Expr → Except EvalErr (List Expr)
  | [] => .ok []
  | e :: es =>
    match simplify env e with
    | .error err => .error err
    | .ok r =>
      match simplifyList env es with
      | .error err => .error err
      | .ok rs => .ok (r :: rs)
end

/-- The cartesian product of `itertools.product(*possibilities)` over lists
(`expr.py` lines 372, 377); `product` of no lists yields one empty tuple. -/
def listProduct : List (List Expr) → List (List Expr)
  | [] => [[]]
  | l :: ls => l.flatMap (fun x => (listProduct ls).map (fun t => x :: t))

mutual
/-- `all_possible_values(e)` (`expr.py` lines 351–382), with the generator
materialised as a list of yielded items.  A literal yields itself; for a
`ReferenceExpr` the source executes `yield all_possible_values(e.get_value())`
— yielding the *generator object* itself (one item, modelled by
`Expr.genObj`), not the values it would produce; concatenations and paths
yield the cartesian product of their children's possible values, reassembled;
a `ListExpr` trips the leading assert; anything else raises. -/
def all_possible_values (env : Env) : Expr → Except EvalErr (List Expr)
  | .list items => .error (.assertNestedList (.list items))
  | .literal v => .ok [.literal v]
  | .ref x =>
    match get_value env x with
    | .error err => .error err
    -- `yield all_possible_values(...)`: the inner generator is created but
    -- never run, so the single yielded item is the pending generator:
    | .ok v => .ok [.genObj v]
  | .concat items =>
    match allPossibleValuesList env items with
    | .error err => .error err
    | .ok possibilities => .ok ((listProduct possibilities).map Expr.concat)
  | .path comps a =>
    match allPossibleValuesList env comps with
    | .error err => .error err
    | .ok possibilities => .ok ((listProduct possibilities).map (fun t => Expr.path t a))
  | e => .error (.cannotEnumerate e)

/-- The list comprehension `[ all_possible_values(i) for i in e.items ]`
(`expr.py` lines 371, 376). -/
def allPossibleValuesList (env : Env) : List Expr → Except EvalErr (List (List Expr))
  | [] => .ok []
  | e :: es =>
    match all_possible_values env e with
    | .error err => .error err
    | .ok vs =>
      match allPossibleValuesList env es with
      | .error err => .error err
      | .ok vss => .ok (vs :: vss)
end

/-- `isinstance(e, LiteralExpr)`. -/
def isLiteral : Expr → Bool
  | .literal _ => true
  | _ => false

mutual
/-- No `ReferenceExpr` occurs anywhere in the expression. -/
def refFree : Expr → Bool
  | .literal _ => true
  | .boolValue _ => true
  | .null => true
  | .ref _ => false
  | .genObj p => refFree p
  | .list items => refFreeList items
  | .concat items => refFreeList items
  | .path comps _ => refFreeList comps
  | .boolE _ l r =>
    refFree l &&
      (match r with
       | none => true
       | some x => refFree x)
  | .ifE c y n => refFree c && refFree y && refFree n

def refFreeList : List Expr → Bool
  | [] => true
  | e :: es => refFree e && refFreeList es
end

/-- No two adjacent items of the list are both literals — the shape
`simplify`'s literal-fusion loop establishes. -/
def NoAdjacentLiterals (l : List Expr) : Prop :=
  List.Chain' (fun a b => ¬(isLiteral a = true ∧ isLiteral b = true)) l

/-! ## The incremental-dependency ledger (`bakefile/src/dependencies.py`) -/

/-- Python dictionaries of the ledger are modelled as association lists;
`dictFind` is `d[k]` / `k in d`. -/
def dictFind {α β : Type} [DecidableEq α] : List (α × β) → α → Option β
  | [], _ => none
  | (k, v) :: rest, x => if k = x then some v else dictFind rest x

/-- `d[k] = v`: overwrite the binding if the key exists, append otherwise. -/
def dictSet {α β : Type} [DecidableEq α] : List (α × β) → α → β → List (α × β)
  | [], k, v => [(k, v)]
  | (k', v') :: rest, k, v =>
    if k' = k then (k, v) :: rest else (k', v') :: dictSet rest k v

/-- A key of `deps_db` / `cmdlines_db`: the `(bakefile, format)` pair. -/
abbrev DepsKey := String × String

/-- `dependencies.py`'s `DepsRecord`: the list of input dependencies and the
list of `(output_file, method)` pairs of one generation unit. -/
structure DepsRecord where
  deps : List String
  outputs : List (String × String)
deriving DecidableEq

/-- The three module-level dictionaries of `dependencies.py`:
`deps_db`, `modtimes_db` and `cmdlines_db`. -/
structure DepsState where
  deps_db : List (DepsKey × DepsRecord)
  modtimes_db : List (String × Int)
  cmdlines_db : List (DepsKey × List String)
deriving DecidableEq

/-- `DEPS_FORMAT_VERSION` (`dependencies.py` line 26). -/
def DEPS_FORMAT_VERSION : Int := 4

/-- The on-disk file system, as far as the ledger observes it: a map from
filenames to their mtimes.  `os.path.isfile f` is `(dictFind fs f).isSome`
and `os.stat(f).st_mtime` succeeds exactly on bound names. -/
abbrev FileSystem := List (String × Int)

/-- The output-scanning loop of `needsUpdate` (`dependencies.py` lines
108–117): walks `info.outputs` accumulating `oldest_output`.  The effective
time of an output on disk with mtime `f_time` is raised to the recorded
`modtimes_db` stamp when that is newer.  Result `none` models the early
`return 1` on a missing output file; `some acc` is the final
`oldest_output` (itself `none` when no output was seen). -/
def oldestOutputLoop (fs : FileSystem) (modtimes : List (String × Int)) :
    List (String × String) → Option Int → Option (Option Int)
  | [], acc => some acc
  | (f, _method) :: rest, acc =>
    match dictFind fs f with
    | none => none
    | some disk =>
      let f_time :=
        match dictFind modtimes f with
        | some recorded => if recorded > disk then recorded else disk
        | none => disk
      let acc' :=
        match acc with
        | none => some f_time
        | some oldest => if f_time < oldest then some f_time else some oldest
      oldestOutputLoop fs modtimes rest acc'

/-- The dependency-scanning loop of `needsUpdate` (`dependencies.py` lines
125–131): `true` iff some dependency is missing from disk or is newer than
`oldest_output`. -/
def depsLoop (fs : FileSystem) (oldest : Int) : List String → Bool
  | [] => false
  | f :: rest =>
    match dictFind fs f with
    | none => true
    | some t => if oldest < t then true else depsLoop fs oldest rest

/-- `needsUpdate(bakefile, format, cmdline)` (`dependencies.py` lines
92–134).  `some true` / `some false` are Python's `1` / `0`; `none` models
the exception `os.stat(bakefile)` raises when the input file itself is
missing (the source does not guard it). -/
def needsUpdate (st : DepsState) (fs : FileSystem)
    (bakefile format : String) (cmdline : List String) : Option Bool :=
  let key : DepsKey := (bakefile, format)
  match dictFind st.deps_db key, dictFind st.cmdlines_db key with
  | none, _ => some true
  | some _, none => some true
  | some info, some recorded =>
    if cmdline ≠ recorded then some true
    else
      match dictFind fs bakefile with
      | none => none
      | some bakefile_time =>
        match oldestOutputLoop fs st.modtimes_db info.outputs none with
        | none => some true
        | some none => some true
        | some (some oldest_output) =>
          if oldest_output < bakefile_time then some true
          else some (depsLoop fs oldest_output info.deps)

/-- The ledger file as `save` lays it out (`dependencies.py` lines 61–68): a
version tag followed by the three pickled dictionaries. -/
structure LedgerFile where
  version : Int
  deps : List (DepsKey × DepsRecord)
  modtimes : List (String × Int)
  cmdlines : List (DepsKey × List String)

/-- The inner `__loadDb` of `load` (`dependencies.py` lines 78–85): an empty
in-memory dictionary is replaced wholesale, a non-empty one has every loaded
binding written into it. -/
def loadDb {α β : Type} [DecidableEq α]
    (loaded orig_db : List (α × β)) : List (α × β) :=
  if orig_db.length = 0 then loaded
  else loaded.foldl (fun acc kv => dictSet acc kv.1 kv.2) orig_db

/-- `load(filename)` (`dependencies.py` lines 70–89): checks the leading
format-version tag and raises `IOError` on mismatch, before any of the three
dictionaries is read; otherwise merges the three dictionaries into the state.
The error value carries the state as it stood at the raise. -/
def load (file : LedgerFile) (st : DepsState) :
    Except (Unit × DepsState) DepsState :=
  if file.version ≠ DEPS_FORMAT_VERSION then .error ((), st)
  else
    .ok { deps_db := loadDb file.deps st.deps_db,
          modtimes_db := loadDb file.modtimes st.modtimes_db,
          cmdlines_db := loadDb file.cmdlines st.cmdlines_db }

/-! ### The specification's staleness checks, for comparison with the code

The definitions below are written from the words of spec §4.5 ("Staleness
decision"), not from the source; they are compared with `needsUpdate`. -/

/-- Spec §4.5: "The *effective* output time for a file is `max(recorded
modtime, on-disk mtime)`" (the recorded stamp only exists for files that were
declared as outputs; without one the on-disk mtime stands). -/
def effectiveTime (modtimes : List (String × Int)) (fs : FileSystem)
    (f : String) : Int :=
  let disk := (dictFind fs f).getD 0
  match dictFind modtimes f with
  | some recorded => max recorded disk
  | none => disk

/-- Spec §4.5: "the oldest effective output time" — the minimum of the
effective times of the declared outputs (`none` when nothing is declared). -/
def oldestEffective (modtimes : List (String × Int)) (fs : FileSystem)
    (outputs : List (String × String)) : Option Int :=
  match outputs.map (fun p => effectiveTime modtimes fs p.1) with
  | [] => none
  | t :: ts => some (ts.foldl min t)

/-- The six staleness checks of spec §4.5, as one predicate: true iff *all
six pass*, i.e. (1) the key is known to deps and cmdlines, (2) the recorded
cmdline equals the supplied one, (3) every declared output exists on disk,
(4) every declared input dependency exists on disk, (5) the oldest effective
output time is not older than the input `.bkl` file's mtime, and (6) not
older than any declared input dependency's mtime.  Checks 5 and 6 are
vacuous when no output is declared. -/
def sixChecksPass (st : DepsState) (fs : FileSystem)
    (bakefile format : String) (cmdline : List String) : Bool :=
  let key : DepsKey := (bakefile, format)
  match dictFind st.deps_db key, dictFind st.cmdlines_db key with
  | some info, some recorded =>
    cmdline = recorded
    && info.outputs.all (fun p => (dictFind fs p.1).isSome)
    && info.deps.all (fun d => (dictFind fs d).isSome)
    && (match oldestEffective st.modtimes_db fs info.outputs with
        | none => true
        | some oldest =>
          !(oldest < (dictFind fs bakefile).getD 0)
          && info.deps.all (fun d => !(oldest < (dictFind fs d).getD 0)))
  | _, _ => false

/-- One step of the accumulated minimum of effective output times, as the
spec computes it (used to relate `oldestOutputLoop` to `oldestEffective`). -/
def minStep (mt : List (String × Int)) (fs : FileSystem)
    (a : Option Int) (p : String × String) : Option Int :=
  match a with
  | none => some (effectiveTime mt fs p.1)
  | some o => some (min o (effectiveTime mt fs p.1))

/-- The outputs the ledger has recorded for a key (empty when the key is
unknown). -/
def declaredOutputs (st : DepsState) (key : DepsKey) : List (String × String) :=
  match dictFind st.deps_db key with
  | some info => info.outputs
  | none => []

/-! ## The AST-to-model builder (`src/bkl/interpreter/builder.py`)

The builder's scope model (`bkl/model.py`) is not among the sources under
review; the spec (§3 "Model", §4.3 "Model Scoping") describes variables as
named, typed slots owned by a hierarchy of scopes, looked up locally by
`get_variable`, along the scope chain by `resolve_variable`, with
`get_prop` consulting a read-only property registry.  Those operations are
modelled from the spec below; `on_assignment` itself is translated from
`builder.py`. -/

/-- Modelled from the spec: variable types (`bkl/vartypes.py`, not under
review).  Spec §4.4 step 7 needs exactly: `ListType` (with an item type),
`AnyType` (promotable to a list), and the remaining, non-promotable types,
which the embedding does not tell apart.  -/
inductive VarType where
  | any
  | listT (item : VarType)
  | otherT (name : String)
deriving DecidableEq

/-- Modelled from the spec: a model `Variable` — "name, expression value,
type tag" (spec §3). -/
structure Variable where
  name : String
  value : Expr
  type : VarType

/-- Modelled from the spec: a registered `Property` descriptor — name, type
and default expression (spec §3; the readonly flag plays no role in
`on_assignment` and is omitted, and `default_expr(scope)` is taken at its
value for the current scope). -/
structure PropDef where
  name : String
  type : VarType
  default : Expr

/-- Modelled from the spec: one scope (Project/Module/Target) — its variable
environment in declaration order and the property registry for its kind. -/
structure Scope where
  vars : List Variable
  props : List PropDef

/-- Modelled from the spec: the builder's current context, as the chain of
scopes from the innermost outward. -/
abbrev Context := List Scope

/-- Name lookup in one scope's variable list. -/
def lookupVar : List Variable → String → Option Variable
  | [], _ => none
  | v :: rest, x => if v.name = x then some v else lookupVar rest x

/-- Modelled from the spec: `get_variable(name)` is scope-local only
(spec §4.3). -/
def get_variable (ctx : Context) (name : String) : Option Variable :=
  match ctx with
  | [] => none
  | s :: _ => lookupVar s.vars name

/-- Modelled from the spec: `resolve_variable(name)` walks from the current
scope toward the root, returning the first match (spec §4.3). -/
def resolve_variable : Context → String → Option Variable
  | [], _ => none
  | s :: rest, name =>
    match lookupVar s.vars name with
    | some v => some v
    | none => resolve_variable rest name

/-- Name lookup in a property registry. -/
def lookupProp : List PropDef → String → Option PropDef
  | [], _ => none
  | p :: rest, x => if p.name = x then some p else lookupProp rest x

/-- Modelled from the spec: `get_prop(name)` returns a property descriptor
registered for the current scope's kind (spec §4.3). -/
def get_prop (ctx : Context) (name : String) : Option PropDef :=
  match ctx with
  | [] => none
  | s :: _ => lookupProp s.props name

/-- Modelled from the spec: `add_variable` places a new variable in the
current scope (spec §4.4 steps 4 and 6; Python dict insertion order makes it
last). -/
def add_variable (ctx : Context) (v : Variable) : Context :=
  match ctx with
  | [] => []
  | s :: rest => { s with vars := s.vars ++ [v] } :: rest

/-- Replace the binding of `v.name` (Python mutates the `Variable` object in
place; the embedding swaps it in the list). -/
def replaceVar : List Variable → Variable → List Variable
  | [], _ => []
  | w :: ws, v => if w.name = v.name then v :: ws else w :: replaceVar ws v

/-- The in-place mutation of a variable already present in the current
scope (`var.set_value(...)` / `var.type = ...` of `builder.py`). -/
def set_variable (ctx : Context) (v : Variable) : Context :=
  match ctx with
  | [] => []
  | s :: rest => { s with vars := replaceVar s.vars v } :: rest

/-- `Variable.from_property(prop, value)` of `model.py` (modelled from the
spec, §4.4 step 4): a variable named and typed after the property, seeded
with the given value. -/
def Variable.from_property (prop : PropDef) (value : Expr) : Variable :=
  { name := prop.name, value := value, type := prop.type }

/-- A raised `ParserError`, carrying its message and the context as it stood
at the moment of the raise (so that theorems can speak about the state an
error leaves behind). -/
abbrev ParserErr := String × Context

/-- The "finally, modify variable value" block of `on_assignment`
(`builder.py` lines 186–207).  `var` is already present in the innermost
scope of `ctx` (`previous` is only read).  For an append, a non-list,
non-`AnyType` variable is a `ParserError`; `AnyType` is promoted to
`ListType(AnyType)`; the new items (the list's items, or the value as a
singleton) are concatenated onto the previous value (a non-list previous
becoming a singleton).  A plain set just replaces the value. -/
def applyAssignment (ctx : Context) (var : Variable) (previous : Option Variable)
    (append : Bool) (value : Expr) (varname : String) : Except ParserErr Context :=
  if append then
    match previous with
    | none =>
      -- `assert previous_value is not None`: unreachable from `on_assignment`
      .error ("assertion failed: previous_value is not None", ctx)
    | some prev =>
      let promoted : Except ParserErr VarType :=
        match var.type with
        | .listT t => .ok (.listT t)
        | .any => .ok (.listT .any)
        | _ => .error ("cannot append to non-list variable \"" ++ varname ++ "\"",
                       ctx)
      match promoted with
      | .error e => .error e
      | .ok ty =>
        let new_values :=
          match value with
          | .list items => items
          | v => [v]
        let joined :=
          match prev.value with
          | .list items => Expr.list (items ++ new_values)
          | pv => Expr.list ([pv] ++ new_values)
        .ok (set_variable ctx { var with type := ty, value := joined })
  else
    .ok (set_variable ctx { var with value := value })

/-- `Builder.on_assignment` (`builder.py` lines 114–207), for both `=` and
`+=` statements.  `activeCond` is `self.active_if_cond`; `value0` is the
expression already built from the AST.  The underscore warning (lines
120–122) is non-fatal and not modelled.  Steps, as in the source: local
lookup, enclosing-scope resolution of the previous value, property bridging,
conditional wrapping (per-item `IfExpr`s for a conditional list append, a
single `IfExpr` otherwise), variable creation (raising "unknown variable"
for an append with no previous value), and the final update. -/
def on_assignment (ctx : Context) (activeCond : Option Expr) (append : Bool)
    (varname : String) (value0 : Expr) : Except ParserErr Context :=
  let var0 := get_variable ctx varname
  let previous0 :=
    match var0 with
    | none => resolve_variable ctx varname
    | some v => some v
  -- property bridging (`builder.py` lines 132–148):
  let bridged : Context × Option Variable × Option Variable :=
    match var0 with
    | some v => (ctx, some v, previous0)
    | none =>
      match get_prop ctx varname with
      | none => (ctx, none, previous0)
      | some prop =>
        let propval := if append || activeCond.isSome then prop.default else Expr.null
        let v := Variable.from_property prop propval
        (add_variable ctx v, some v,
         match previous0 with
         | none => some v
         | some p => some p)
  match bridged with
  | (ctx1, var1, previous1) =>
    -- conditional wrapping (`builder.py` lines 150–174):
    let value :=
      match activeCond with
      | none => value0
      | some cond =>
        if append then
          match value0 with
          | .list items =>
            Expr.list (items.map (fun i => Expr.ifE cond i Expr.null))
          | v => Expr.ifE cond v Expr.null
        else
          Expr.ifE cond value0
            (match previous1 with
             | some p => p.value
             | none => Expr.null)
    -- create the variable if necessary (`builder.py` lines 176–184):
    match var1 with
    | some var => applyAssignment ctx1 var previous1 append value varname
    | none =>
      if append && previous1.isNone then
        .error ("unknown variable \"" ++ varname ++ "\"", ctx1)
      else
        match previous1 with
        | some prev =>
          let var := Variable.mk varname prev.value prev.type
          applyAssignment (add_variable ctx1 var) var previous1 append value varname
        | none =>
          -- `Variable(varname, value)`: a free assignment starts as AnyType
          -- (spec §3)
          let var := Variable.mk varname value .any
          applyAssignment (add_variable ctx1 var) var previous1 append value varname

/-! ### `Builder.handle_children` (`builder.py` lines 88–102)

The builder's mutable attributes are a current context plus whatever else the
node handlers touch; the dynamic dispatch of `_handle_node` is a parameter.
Errors carry the builder state at the raise (Python's exception unwinding
runs the `finally`, which is the point of claim C10). -/

/-- The builder's mutable state: the `context` attribute and the rest of the
interpreter state (`σ`), untouched by `handle_children` itself. -/
structure BuilderState (Ctx σ : Type) where
  context : Ctx
  rest : σ

/-- The `for n in children: self._handle_node(n)` loop: thread the state
through the handler, stopping at the first raised error. -/
def runNodes {Node Ctx σ E : Type}
    (handleNode : Node → BuilderState Ctx σ →
      Except (E × BuilderState Ctx σ) (BuilderState Ctx σ)) :
    List Node → BuilderState Ctx σ →
      Except (E × BuilderState Ctx σ) (BuilderState Ctx σ)
  | [], st => .ok st
  | n :: ns, st =>
    match handleNode n st with
    | .ok st' => runNodes handleNode ns st'
    | .error e => .error e

/-- `Builder.handle_children(children, context)`: saves `self.context`, sets
it to `context`, runs every child through the node handler, and restores the
saved context in a `finally` — on the success path and on the error path
alike. -/
def handle_children {Node Ctx σ E : Type}
    (handleNode : Node → BuilderState Ctx σ →
      Except (E × BuilderState Ctx σ) (BuilderState Ctx σ))
    (children : List Node) (context : Ctx) (st : BuilderState Ctx σ) :
    Except (E × BuilderState Ctx σ) (BuilderState Ctx σ) :=
  let old_ctxt := st.context
  match runNodes handleNode children { st with context := context } with
  | .ok st' => .ok { st' with context := old_ctxt }
  | .error (e, st') => .error (e, { st' with context := old_ctxt })

/-!
# Theorems

Each claim of the specification review is settled by one theorem below.
-/

/-- C1: the claim says `simplify` of a `ReferenceExpr` whose referenced value
is a `ListExpr` returns the reference unchanged.  The code does not: the
guard `isinstance(e, LiteralExpr) or isinstance(e, ReferenceExpr)` tests `e`,
the reference itself — which is always a `ReferenceExpr` in that branch — so
the referenced value is substituted even when it is a list, contradicting the
source's own comment ("if the value is e.g. a list, we want to keep it as a
variable to avoid duplication of large values").  At the failing input, a
reference to a two-element list, `simplify` returns the list, not the
reference. -/
theorem simplify_reference_inlines_list_value :
    simplify [("a", Expr.list [Expr.literal "1", Expr.literal "2"])] (Expr.ref "a")
      = .ok (Expr.list [Expr.literal "1", Expr.literal "2"]) ∧
    Expr.list [Expr.literal "1", Expr.literal "2"] ≠ Expr.ref "a" := by
  constructor
  · simp [simplify, get_value, lookupEnv]
  · intro h
    exact Expr.noConfusion h

/-- C4: the claim says `all_possible_values` of a `ReferenceExpr` yields the
constant expressions that `all_possible_values` of the referenced value
yields.  The code executes `yield all_possible_values(e.get_value())`,
yielding the *generator object* itself as the single item — not the values —
contradicting the function's own docstring ("returns a Python iterator over
all its possible values, as `bkl.expr.Expr` instances").  At the failing
input, a reference to the literal `"x"`, the yielded sequence is one pending
generator, not the literal. -/
theorem all_possible_values_reference_yields_generator :
    all_possible_values [("b", Expr.literal "x")] (Expr.ref "b")
      = .ok [Expr.genObj (Expr.literal "x")] ∧
    Expr.genObj (Expr.literal "x") ≠ Expr.literal "x" := by
  constructor
  · simp [all_possible_values, get_value, lookupEnv]
  · intro h
    exact Expr.noConfusion h

/-- C5: splitting `Concat[Lit "foo/bar", Lit "x/y"]` by `/` splits each child
recursively and resplices across the child boundary, merging the last
segment of the first child with the first segment of the second into a single
`ConcatExpr`: exactly the three segments
`[Lit "foo", Concat[Lit "bar", Lit "x"], Lit "y"]`, in any environment and
with any sufficient fuel. -/
theorem split_concat_splices_at_boundaries (env : Env) (fuel : Nat) :
    split env (fuel + 2) (Expr.concat [Expr.literal "foo/bar", Expr.literal "x/y"]) '/'
      = .ok [Expr.literal "foo",
             Expr.concat [Expr.literal "bar", Expr.literal "x"],
             Expr.literal "y"] := by
  simp [split, splitItems, pySplit, pySplitAux, spliceSegments]

/-- C6: an append assignment to a name that is not defined locally, not
resolvable in any enclosing scope, and not backed by a registered property
raises `ParserError "unknown variable"`, and the raise leaves the scope's
variable environment exactly as it was (the error value carries the context
at the raise, which is the unmodified input context). -/
theorem on_assignment_append_unknown_variable
    (ctx : Context) (activeCond : Option Expr) (x : String) (value : Expr)
    (hlocal : get_variable ctx x = none)
    (hresolve : resolve_variable ctx x = none)
    (hprop : get_prop ctx x = none) :
    on_assignment ctx activeCond true x value
      = .error ("unknown variable \"" ++ x ++ "\"", ctx) := by
  unfold on_assignment
  rw [hlocal, hresolve, hprop]
  simp

/-- Witness for C6: `x += 1` in a fresh empty scope. -/
theorem on_assignment_append_unknown_variable_witness :
    on_assignment [⟨[], []⟩] none true "x" (Expr.literal "1")
      = .error ("unknown variable \"x\"", [⟨[], []⟩]) :=
  on_assignment_append_unknown_variable [⟨[], []⟩] none "x" (Expr.literal "1")
    rfl rfl rfl

/-- C7: loading a ledger file whose leading version tag differs from
`DEPS_FORMAT_VERSION` (4) raises the error before any of the three
dictionaries is read, and the in-memory `deps_db`, `modtimes_db` and
`cmdlines_db` are unchanged: the error carries exactly the input state. -/
theorem load_version_mismatch (file : LedgerFile) (st : DepsState)
    (h : file.version ≠ DEPS_FORMAT_VERSION) :
    load file st = .error ((), st) := by
  unfold load
  rw [if_pos h]

/-- Witness for C7: a version-3 ledger file against a non-empty state. -/
theorem load_version_mismatch_witness :
    load { version := 3, deps := [], modtimes := [], cmdlines := [] }
        { deps_db := [], modtimes_db := [("out.mk", 7)], cmdlines_db := [] }
      = .error ((), { deps_db := [], modtimes_db := [("out.mk", 7)], cmdlines_db := [] }) :=
  load_version_mismatch _ _ (by decide)

/-- C9: a key recorded in both `deps_db` and `cmdlines_db` whose record
declares no outputs makes `needsUpdate` return true (regenerate) even when
the supplied cmdline matches the recorded one and the input `.bkl` file
exists: the loop leaves `oldest_output` at `None`, which the code treats as
stale — a condition not among the spec's six checks. -/
theorem needsUpdate_empty_outputs
    (st : DepsState) (fs : FileSystem) (bakefile format : String)
    (cmdline : List String) (info : DepsRecord) (t : Int)
    (hdeps : dictFind st.deps_db (bakefile, format) = some info)
    (houtputs : info.outputs = [])
    (hcmd : dictFind st.cmdlines_db (bakefile, format) = some cmdline)
    (hbk : dictFind fs bakefile = some t) :
    needsUpdate st fs bakefile format cmdline = some true := by
  simp only [needsUpdate, hdeps, hcmd, hbk, houtputs]
  simp [oldestOutputLoop]

/-- Witness for C9: an empty-outputs record with a matching cmdline and an
existing input file. -/
theorem needsUpdate_empty_outputs_witness :
    needsUpdate
        { deps_db := [(("in.bkl", "gnu"), { deps := [], outputs := [] })],
          modtimes_db := [],
          cmdlines_db := [(("in.bkl", "gnu"), ["--foo"])] }
        [("in.bkl", 105)] "in.bkl" "gnu" ["--foo"] = some true :=
  needsUpdate_empty_outputs _ _ _ _ _ _ 105 rfl rfl rfl rfl

/-! ### Helper lemmas on `simplify` (for claim C8) -/

/-- `isLiteral` characterised. -/
theorem isLiteral_iff (e : Expr) : isLiteral e = true ↔ ∃ s, e = Expr.literal s := by
  cases e <;> simp [isLiteral]

/-- `refFreeList` is the pointwise `refFree`. -/
theorem refFreeList_iff : ∀ l : List Expr,
    (refFreeList l = true ↔ ∀ x ∈ l, refFree x = true) := by
  intro l
  induction l with
  | nil => simp [refFreeList]
  | cons e es ih =>
    simp only [refFreeList, Bool.and_eq_true, ih, List.mem_cons]
    constructor
    · rintro ⟨h1, h2⟩ x (rfl | hx)
      · exact h1
      · exact h2 x hx
    · intro h
      exact ⟨h e (Or.inl rfl), fun x hx => h x (Or.inr hx)⟩

/-- A list of expressions that `simplify` leaves unchanged is left unchanged
by `simplifyList`. -/
theorem simplifyList_fixed (env : Env) :
    ∀ l : List Expr, (∀ x ∈ l, simplify env x = .ok x) →
      simplifyList env l = .ok l := by
  intro l
  induction l with
  | nil => simp [simplifyList]
  | cons e es ih =>
    intro h
    simp only [simplifyList, h e (List.mem_cons_self _ _),
      ih (fun x hx => h x (List.mem_cons_of_mem _ hx))]

/-- Every element of the fusion loop's output satisfies any property that
holds on the inputs and on all literals. -/
theorem mergeLoop_mem (P : Expr → Prop) (hlit : ∀ s, P (Expr.literal s)) :
    ∀ (l out : List Expr), (∀ x ∈ out, P x) → (∀ x ∈ l, P x) →
      ∀ x ∈ mergeLoop out l, P x := by
  intro l
  induction l with
  | nil =>
    intro out hout _
    simpa [mergeLoop] using hout
  | cons i rest ih =>
    intro out hout hl
    simp only [mergeLoop]
    split
    · rename_i v u heq
      refine ih _ ?_ (fun x hx => hl x (List.mem_cons_of_mem _ hx))
      intro x hx
      rcases List.mem_append.mp hx with hx | hx
      · exact hout x (List.Sublist.subset (List.dropLast_sublist out) hx)
      · rcases List.mem_singleton.mp hx with rfl
        exact hlit _
    · refine ih _ ?_ (fun x hx => hl x (List.mem_cons_of_mem _ hx))
      intro x hx
      rcases List.mem_append.mp hx with hx | hx
      · exact hout x hx
      · rcases List.mem_singleton.mp hx with rfl
        exact hl _ (List.mem_cons_self _ _)

/-- Replacing a trailing literal by another literal preserves the
no-adjacent-literals invariant. -/
theorem noAdj_dropLast_append_literal (out : List Expr) (u w : String)
    (hne : out ≠ []) (hlast : out.getLast? = some (Expr.literal u))
    (h : NoAdjacentLiterals out) :
    NoAdjacentLiterals (out.dropLast ++ [Expr.literal w]) := by
  have hg : out.getLast hne = Expr.literal u := by
    rw [List.getLast?_eq_getLast out hne] at hlast
    exact Option.some.inj hlast
  have hdecomp : out.dropLast ++ [Expr.literal u] = out := by
    rw [← hg]
    exact List.dropLast_append_getLast hne
  rw [← hdecomp] at h
  obtain ⟨h1, -, hb⟩ := List.chain'_append.mp h
  refine List.chain'_append.mpr ⟨h1, List.chain'_singleton _, ?_⟩
  intro x hx y hy
  have := hb x hx (Expr.literal u) rfl
  simp only [List.head?_cons, Option.mem_def, Option.some.injEq] at hy
  subst hy
  simp only [isLiteral, not_and] at this ⊢
  intro hxlit
  exact absurd (this hxlit) (by simp)

/-- Appending an element that does not form a literal pair with the last
element preserves the no-adjacent-literals invariant. -/
theorem noAdj_append_single (out : List Expr) (i : Expr)
    (h : NoAdjacentLiterals out)
    (hb : ∀ x, out.getLast? = some x →
      ¬(isLiteral x = true ∧ isLiteral i = true)) :
    NoAdjacentLiterals (out ++ [i]) := by
  refine List.chain'_append.mpr ⟨h, List.chain'_singleton _, ?_⟩
  intro x hx y hy
  simp only [List.head?_cons, Option.mem_def, Option.some.injEq] at hy
  subst hy
  exact hb x hx

/-- The fusion loop keeps the accumulator non-empty and free of adjacent
literal pairs. -/
theorem mergeLoop_noAdj :
    ∀ (l out : List Expr), out ≠ [] → NoAdjacentLiterals out →
      mergeLoop out l ≠ [] ∧ NoAdjacentLiterals (mergeLoop out l) := by
  intro l
  induction l with
  | nil =>
    intro out h1 h2
    simpa [mergeLoop] using ⟨h1, h2⟩
  | cons i rest ih =>
    intro out h1 h2
    simp only [mergeLoop]
    split
    · rename_i v u heq
      exact ih _ (by simp)
        (noAdj_dropLast_append_literal out u (u ++ v) h1 heq h2)
    · rename_i hfb
      refine ih _ (by simp) (noAdj_append_single out _ h2 ?_)
      intro x hx hpair
      obtain ⟨s, hs⟩ := (isLiteral_iff _).mp hpair.1
      obtain ⟨t, ht⟩ := (isLiteral_iff _).mp hpair.2
      subst hs
      exact hfb t s ht hx

/-- On a list with no adjacent literal pairs the fusion loop only
concatenates. -/
theorem mergeLoop_of_noAdj :
    ∀ (l out : List Expr), out ≠ [] → NoAdjacentLiterals (out ++ l) →
      mergeLoop out l = out ++ l := by
  intro l
  induction l with
  | nil =>
    intro out _ _
    simp [mergeLoop]
  | cons i rest ih =>
    intro out h1 h2
    simp only [mergeLoop]
    split
    · rename_i v u heq
      exfalso
      obtain ⟨-, -, hb⟩ := List.chain'_append.mp h2
      have := hb (Expr.literal u) heq (Expr.literal v) (by simp)
      simp [isLiteral] at this
    · rename_i j j' jo hfb
      have h2' : NoAdjacentLiterals ((out ++ [j]) ++ rest) := by
        rw [List.append_assoc]
        simpa using h2
      rw [ih (out ++ [j]) (by simp) h2']
      simp

/-- Every element of `mergeLiterals l` satisfies any property holding on `l`
and on all literals. -/
theorem mergeLiterals_mem (P : Expr → Prop) (hlit : ∀ s, P (Expr.literal s))
    (l : List Expr) (hl : ∀ x ∈ l, P x) : ∀ x ∈ mergeLiterals l, P x := by
  cases l with
  | nil => simp [mergeLiterals]
  | cons x xs =>
    simp only [mergeLiterals]
    refine mergeLoop_mem P hlit xs [x] ?_ ?_
    · intro y hy
      rcases List.mem_singleton.mp hy with rfl
      exact hl _ (List.mem_cons_self _ _)
    · intro y hy
      exact hl y (List.mem_cons_of_mem _ hy)

/-- The output of `mergeLiterals` has no adjacent literal pair. -/
theorem mergeLiterals_noAdj (l : List Expr) :
    NoAdjacentLiterals (mergeLiterals l) := by
  cases l with
  | nil => exact List.chain'_nil
  | cons x xs =>
    exact (mergeLoop_noAdj xs [x] (by simp) (List.chain'_singleton _)).2

/-- `mergeLiterals` leaves a list with no adjacent literal pair unchanged. -/
theorem mergeLiterals_of_noAdj (l : List Expr)
    (h : NoAdjacentLiterals l) : mergeLiterals l = l := by
  cases l with
  | nil => rfl
  | cons x xs =>
    simp only [mergeLiterals]
    rw [mergeLoop_of_noAdj xs [x] (by simp) (by simpa using h)]
    simp

/-- Literal fusion is idempotent. -/
theorem mergeLiterals_idem (l : List Expr) :
    mergeLiterals (mergeLiterals l) = mergeLiterals l :=
  mergeLiterals_of_noAdj _ (mergeLiterals_noAdj l)

/-- Expressions other than lists, paths, concatenations and references fall
through `simplify`'s `isinstance` chain and come back unchanged. -/
theorem simplify_default (env : Env) (e : Expr)
    (h1 : ∀ items, e = Expr.list items → False)
    (h2 : ∀ comps a, e = Expr.path comps a → False)
    (h3 : ∀ items, e = Expr.concat items → False)
    (h4 : ∀ x, e = Expr.ref x → False) :
    simplify env e = .ok e := by
  cases e with
  | list items => exact (h1 items rfl).elim
  | path comps a => exact (h2 comps a rfl).elim
  | concat items => exact (h3 items rfl).elim
  | ref x => exact (h4 x rfl).elim
  | literal v => simp [simplify]
  | boolValue v => simp [simplify]
  | null => simp [simplify]
  | boolE op l r => simp [simplify]
  | ifE c y n => simp [simplify]
  | genObj p => simp [simplify]

/-- On reference-free expressions, whatever `simplify` returns is itself
reference-free and a fixed point of `simplify` (joint statement for
expressions and item lists, proved by the recursion structure of
`simplify`). -/
theorem simplify_fixed_all (env : Env) :
    (∀ e, ∀ r, refFree e = true → simplify env e = .ok r →
        refFree r = true ∧ simplify env r = .ok r) ∧
    (∀ l, refFreeList l = true → ∀ rs, simplifyList env l = .ok rs →
        ∀ x ∈ rs, refFree x = true ∧ simplify env x = .ok x) := by
  refine simplify.mutual_induct env
    (fun e => ∀ r, refFree e = true → simplify env e = .ok r →
        refFree r = true ∧ simplify env r = .ok r)
    (fun l => refFreeList l = true → ∀ rs, simplifyList env l = .ok rs →
        ∀ x ∈ rs, refFree x = true ∧ simplify env x = .ok x)
    ?_ ?_ ?_ ?_ ?_ ?_ ?_ ?_ ?_ ?_ ?_ ?_ ?_
  · -- ListExpr, child simplification fails
    intro items err hsl _ r _ hs
    simp only [simplify, hsl] at hs
    exact Except.noConfusion hs
  · -- ListExpr
    intro items its hsl IH r hrf hs
    simp only [simplify, hsl] at hs
    have hr : Expr.list its = r := by simpa using hs
    subst hr
    have hrf' : refFreeList items = true := by simpa [refFree] using hrf
    have hpt := IH hrf' its hsl
    constructor
    · simp only [refFree]
      exact (refFreeList_iff its).mpr (fun x hx => (hpt x hx).1)
    · simp only [simplify, simplifyList_fixed env its (fun x hx => (hpt x hx).2)]
  · -- PathExpr, child simplification fails
    intro comps a err hsl _ r _ hs
    simp only [simplify, hsl] at hs
    exact Except.noConfusion hs
  · -- PathExpr
    intro comps a its hsl IH r hrf hs
    simp only [simplify, hsl] at hs
    have hr : Expr.path its a = r := by simpa using hs
    subst hr
    have hrf' : refFreeList comps = true := by simpa [refFree] using hrf
    have hpt := IH hrf' its hsl
    constructor
    · simp only [refFree]
      exact (refFreeList_iff its).mpr (fun x hx => (hpt x hx).1)
    · simp only [simplify, simplifyList_fixed env its (fun x hx => (hpt x hx).2)]
  · -- ConcatExpr, child simplification fails
    intro items err hsl _ r _ hs
    simp only [simplify, hsl] at hs
    exact Except.noConfusion hs
  · -- ConcatExpr
    intro items its hsl IH r hrf hs
    simp only [simplify, hsl] at hs
    have hr : Expr.concat (mergeLiterals its) = r := by simpa using hs
    subst hr
    have hrf' : refFreeList items = true := by simpa [refFree] using hrf
    have hpt := IH hrf' its hsl
    have hmem := mergeLiterals_mem
      (fun x => refFree x = true ∧ simplify env x = .ok x)
      (fun s => ⟨by simp [refFree], by simp [simplify]⟩) its hpt
    constructor
    · simp only [refFree]
      exact (refFreeList_iff _).mpr (fun x hx => (hmem x hx).1)
    · simp only [simplify,
        simplifyList_fixed env (mergeLiterals its) (fun x hx => (hmem x hx).2)]
      rw [mergeLiterals_idem]
  · -- ReferenceExpr, lookup fails: excluded by refFree
    intro x err _ r hrf
    simp [refFree] at hrf
  · -- ReferenceExpr: excluded by refFree
    intro x v _ r hrf
    simp [refFree] at hrf
  · -- all other variants
    intro e h1 h2 h3 h4 r hrf hs
    have hde := simplify_default env e h1 h2 h3 h4
    rw [hde] at hs
    have : e = r := by simpa using hs
    subst this
    exact ⟨hrf, hde⟩
  · -- empty item list
    intro _ rs hs
    simp only [simplifyList] at hs
    have : ([] : List Expr) = rs := by simpa using hs
    subst this
    simp
  · -- item list cons, head fails
    intro h t err hh _ _ rs hs
    simp only [simplifyList, hh] at hs
    exact Except.noConfusion hs
  · -- item list cons, tail fails
    intro h t v hv err ht _ _ _ rs hs
    simp only [simplifyList, hv, ht] at hs
    exact Except.noConfusion hs
  · -- item list cons
    intro h t v hv rt ht IH1 IH2 hrf rs hs
    have hrf' : refFree h = true ∧ refFreeList t = true := by
      simpa [refFreeList, Bool.and_eq_true] using hrf
    simp only [simplifyList, hv, ht] at hs
    have : v :: rt = rs := by simpa using hs
    subst this
    intro x hx
    rcases List.mem_cons.mp hx with rfl | hx
    · exact IH1 _ hrf'.1 hv
    · exact IH2 hrf'.2 rt ht x hx

/-! ### Helper lemmas on the `needsUpdate` loops -/

/-- The output loop early-returns (result `none`) as soon as a declared
output file is missing from disk. -/
theorem oldestOutputLoop_missing (fs : FileSystem) (mt : List (String × Int)) :
    ∀ (outs : List (String × String)) (acc : Option Int),
      (∃ p ∈ outs, dictFind fs p.1 = none) →
      oldestOutputLoop fs mt outs acc = none := by
  intro outs
  induction outs with
  | nil =>
    intro acc h
    obtain ⟨p, hp, _⟩ := h
    exact absurd hp (List.not_mem_nil p)
  | cons q rest ih =>
    intro acc h
    obtain ⟨f, m⟩ := q
    unfold oldestOutputLoop
    cases hq : dictFind fs f with
    | none => rfl
    | some disk =>
      obtain ⟨p, hp, hmiss⟩ := h
      rcases List.mem_cons.mp hp with hp | hp
      · rw [hp] at hmiss
        simp only at hmiss
        rw [hq] at hmiss
        exact absurd hmiss (by simp)
      · exact ih _ ⟨p, hp, hmiss⟩

/-- When every declared output exists on disk, the output loop computes the
fold of the effective times. -/
theorem oldestOutputLoop_all_present (fs : FileSystem) (mt : List (String × Int)) :
    ∀ (outs : List (String × String)) (acc : Option Int),
      (∀ p ∈ outs, (dictFind fs p.1).isSome = true) →
      oldestOutputLoop fs mt outs acc = some (outs.foldl (minStep mt fs) acc) := by
  intro outs
  induction outs with
  | nil => intro acc _; rfl
  | cons q rest ih =>
    intro acc h
    obtain ⟨f, m⟩ := q
    have hq : (dictFind fs f).isSome = true := h (f, m) (List.mem_cons_self _ _)
    obtain ⟨disk, hdisk⟩ := Option.isSome_iff_exists.mp hq
    unfold oldestOutputLoop
    rw [hdisk]
    have heff :
        (match dictFind mt f with
         | some recorded => if recorded > disk then recorded else disk
         | none => disk) = effectiveTime mt fs f := by
      unfold effectiveTime
      rw [hdisk]
      cases dictFind mt f with
      | none => rfl
      | some recorded =>
        simp only [Option.getD_some]
        rw [max_def]
        split_ifs <;> omega
    have hstep :
        (match acc with
         | none => some (effectiveTime mt fs f)
         | some oldest =>
            if effectiveTime mt fs f < oldest then some (effectiveTime mt fs f)
            else some oldest) = minStep mt fs acc (f, m) := by
      unfold minStep
      cases acc with
      | none => rfl
      | some o =>
        simp only
        rw [min_def]
        split_ifs <;> try rfl
        all_goals omega
    simp only [heff]
    rw [hstep, ih _ (fun p hp => h p (List.mem_cons_of_mem _ hp))]
    rfl

/-- The fold of `minStep` from a seeded accumulator is the plain minimum
fold over the effective times. -/
theorem foldl_minStep_some (mt : List (String × Int)) (fs : FileSystem) :
    ∀ (l : List (String × String)) (a : Int),
      l.foldl (minStep mt fs) (some a)
        = some ((l.map (fun p => effectiveTime mt fs p.1)).foldl min a) := by
  intro l
  induction l with
  | nil => intro a; rfl
  | cons q rest ih =>
    intro a
    simp only [List.foldl_cons, List.map_cons]
    rw [show minStep mt fs (some a) q = some (min a (effectiveTime mt fs q.1)) from rfl]
    exact ih _

/-- The output loop, started empty over outputs that are all on disk, lands
exactly on the spec's oldest effective output time. -/
theorem oldestOutputLoop_eq_oldestEffective (fs : FileSystem)
    (mt : List (String × Int)) (outs : List (String × String))
    (h : ∀ p ∈ outs, (dictFind fs p.1).isSome = true) :
    oldestOutputLoop fs mt outs none = some (oldestEffective mt fs outs) := by
  rw [oldestOutputLoop_all_present fs mt outs none h]
  cases outs with
  | nil => rfl
  | cons q rest =>
    unfold oldestEffective
    simp only [List.map_cons, List.foldl_cons]
    rw [show minStep mt fs none q = some (effectiveTime mt fs q.1) from rfl]
    rw [foldl_minStep_some]

/-- The dependency loop returns false exactly when every dependency exists on
disk and none is newer than `oldest`. -/
theorem depsLoop_eq_false_iff (fs : FileSystem) (oldest : Int) :
    ∀ deps : List String,
      (depsLoop fs oldest deps = false
        ↔ ∀ d ∈ deps, (dictFind fs d).isSome = true
            ∧ ¬ oldest < (dictFind fs d).getD 0) := by
  intro deps
  induction deps with
  | nil => simp [depsLoop]
  | cons f rest ih =>
    cases hf : dictFind fs f with
    | none =>
      simp only [depsLoop, hf]
      constructor
      · intro h; exact absurd h (by simp)
      · intro h
        have := (h f (List.mem_cons_self _ _)).1
        rw [hf] at this
        exact absurd this (by simp)
    | some t =>
      by_cases hlt : oldest < t
      · simp only [depsLoop, hf, if_pos hlt]
        constructor
        · intro h; exact absurd h (by simp)
        · intro h
          have := (h f (List.mem_cons_self _ _)).2
          rw [hf] at this
          exact absurd hlt this
      · simp only [depsLoop, hf, if_neg hlt]
        rw [ih]
        constructor
        · intro h d hd
          rcases List.mem_cons.mp hd with hd | hd
          · subst hd
            rw [hf]
            exact ⟨rfl, by simpa using hlt⟩
          · exact h d hd
        · intro h d hd
          exact h d (List.mem_cons_of_mem _ hd)

/-- C2 (amended): provided the input `.bkl` file exists on disk,
`needsUpdate` computes each output's effective time as the maximum of its
recorded modtime and its on-disk mtime, and returns false exactly when all
six staleness checks of spec §4.5 pass *and at least one output is declared
for the key* (the spec's six checks are silently extended by the code with a
seventh: an empty outputs list always regenerates — claim C9).  The S5
scenario (recorded modtime T, on-disk T+10, `.bkl` at T+5, matching cmdline)
is the witness below. -/
theorem needsUpdate_false_iff_six_checks
    (st : DepsState) (fs : FileSystem) (bakefile format : String)
    (cmdline : List String) (bt : Int)
    (hbk : dictFind fs bakefile = some bt) :
    needsUpdate st fs bakefile format cmdline = some false
      ↔ (sixChecksPass st fs bakefile format cmdline = true
         ∧ declaredOutputs st (bakefile, format) ≠ []) := by
  unfold needsUpdate sixChecksPass declaredOutputs
  cases hd : dictFind st.deps_db (bakefile, format) with
  | none => simp [hd]
  | some info =>
    cases hc : dictFind st.cmdlines_db (bakefile, format) with
    | none => simp [hd, hc]
    | some recorded =>
      simp only [hd, hc]
      by_cases hcmd : cmdline = recorded
      · subst hcmd
        rw [if_neg (by simp), hbk]
        by_cases hall : ∀ p ∈ info.outputs, (dictFind fs p.1).isSome = true
        · rw [oldestOutputLoop_eq_oldestEffective fs st.modtimes_db info.outputs hall]
          cases houts : info.outputs with
          | nil => simp [oldestEffective]
          | cons q rest =>
            have hT : oldestEffective st.modtimes_db fs (q :: rest)
                = some ((rest.map (fun p => effectiveTime st.modtimes_db fs p.1)).foldl
                    min (effectiveTime st.modtimes_db fs q.1)) := by
              unfold oldestEffective
              simp
            rw [hT]
            simp only [houts] at hall
            by_cases hbt :
                (rest.map (fun p => effectiveTime st.modtimes_db fs p.1)).foldl
                  min (effectiveTime st.modtimes_db fs q.1) < bt
            · simp [hbt]
            · simp [hbt, depsLoop_eq_false_iff, List.all_eq_true]
              constructor
              · intro h
                refine ⟨⟨⟨hall q (List.mem_cons_self _ _), ?_⟩,
                         fun d hd => (h d hd).1⟩,
                        fun d hd => (h d hd).2⟩
                intro a b hab
                exact hall (a, b) (List.mem_cons_of_mem _ hab)
              · intro h d hd
                exact ⟨h.1.2 d hd, h.2 d hd⟩
        · push_neg at hall
          obtain ⟨p, hp, hmiss⟩ := hall
          have hmiss' : dictFind fs p.1 = none :=
            Option.not_isSome_iff_eq_none.mp (by simpa using hmiss)
          rw [oldestOutputLoop_missing fs st.modtimes_db info.outputs none ⟨p, hp, hmiss'⟩]
          constructor
          · intro h; exact absurd h (by simp)
          · intro h
            have h3 := h.1
            simp only [List.all_eq_true, Bool.and_eq_true, decide_eq_true_eq] at h3
            have := h3.1.1.2 p hp
            rw [hmiss'] at this
            exact absurd this (by simp)
      · rw [if_pos (by simpa using hcmd)]
        constructor
        · intro h; exact absurd h (by simp)
        · intro h
          have h2 := h.1
          simp only [Bool.and_eq_true, decide_eq_true_eq] at h2
          exact absurd h2.1.1.1 hcmd

/-- Witness for C2: the spec's scenario S5 — output `out.mk` recorded at
modtime 100, on disk at 110 (post-processor touched it), `.bkl` at 105,
matching cmdline — where `needs_update` returns false. -/
theorem needsUpdate_false_iff_six_checks_witness :
    needsUpdate
        { deps_db := [(("in.bkl", "gnu"),
            { deps := [], outputs := [("out.mk", "replace")] })],
          modtimes_db := [("out.mk", 100)],
          cmdlines_db := [(("in.bkl", "gnu"), ["--foo"])] }
        [("in.bkl", 105), ("out.mk", 110)] "in.bkl" "gnu" ["--foo"]
      = some false :=
  (needsUpdate_false_iff_six_checks
      { deps_db := [(("in.bkl", "gnu"),
          { deps := [], outputs := [("out.mk", "replace")] })],
        modtimes_db := [("out.mk", 100)],
        cmdlines_db := [(("in.bkl", "gnu"), ["--foo"])] }
      [("in.bkl", 105), ("out.mk", 110)] "in.bkl" "gnu" ["--foo"] 105 rfl).mpr
    (by constructor
        · rfl
        · intro h
          exact List.noConfusion h)

/-- Counterexample for C2 as stated: a key whose record declares no outputs,
with a matching cmdline and the `.bkl` present — all six of the spec's checks
pass, yet `needsUpdate` returns true (regenerate). -/
theorem needsUpdate_six_checks_counterexample :
    sixChecksPass
        { deps_db := [(("in.bkl", "gnu"), { deps := [], outputs := [] })],
          modtimes_db := [],
          cmdlines_db := [(("in.bkl", "gnu"), ["--foo"])] }
        [("in.bkl", 105)] "in.bkl" "gnu" ["--foo"] = true ∧
    needsUpdate
        { deps_db := [(("in.bkl", "gnu"), { deps := [], outputs := [] })],
          modtimes_db := [],
          cmdlines_db := [(("in.bkl", "gnu"), ["--foo"])] }
        [("in.bkl", 105)] "in.bkl" "gnu" ["--foo"] = some true :=
  ⟨rfl, rfl⟩

/-- C3: with a non-empty active condition `cond`, appending a list value to a
variable holding a list (of the promotable `AnyType`, as `a = [1,2]` leaves
it) wraps each appended item individually as `If(cond, item, Null)` and
concatenates them onto the previous items, while a plain assignment wraps the
whole value in a single `If(cond, value, previous-value)`.  Instantiated at
`a = [1,2]`: after `if (c) a += [3]` the variable holds
`[1, 2, If(c, 3, Null)]`, and after `if (c) a = [3]` it holds
`If(c, [3], [1,2])`. -/
theorem on_assignment_conditional_semantics
    (ctx : Context) (cond : Expr) (x : String) (prev items : List Expr)
    (h : get_variable ctx x = some ⟨x, Expr.list prev, VarType.any⟩) :
    on_assignment ctx (some cond) true x (Expr.list items)
      = .ok (set_variable ctx
          ⟨x, Expr.list (prev ++ items.map (fun i => Expr.ifE cond i Expr.null)),
           VarType.listT VarType.any⟩) ∧
    on_assignment ctx (some cond) false x (Expr.list items)
      = .ok (set_variable ctx
          ⟨x, Expr.ifE cond (Expr.list items) (Expr.list prev), VarType.any⟩) := by
  constructor
  · unfold on_assignment
    rw [h]
    simp [applyAssignment]
  · unfold on_assignment
    rw [h]
    simp [applyAssignment]

/-- Witness for C3: the literal scenario `a = [1,2]; if (c) a += [3]` and
`a = [1,2]; if (c) a = [3]`, in a single-scope context. -/
theorem on_assignment_conditional_semantics_witness :
    on_assignment [⟨[⟨"a", Expr.list [Expr.literal "1", Expr.literal "2"], VarType.any⟩], []⟩]
        (some (Expr.ref "c")) true "a" (Expr.list [Expr.literal "3"])
      = .ok [⟨[⟨"a", Expr.list [Expr.literal "1", Expr.literal "2",
                    Expr.ifE (Expr.ref "c") (Expr.literal "3") Expr.null],
               VarType.listT VarType.any⟩], []⟩] ∧
    on_assignment [⟨[⟨"a", Expr.list [Expr.literal "1", Expr.literal "2"], VarType.any⟩], []⟩]
        (some (Expr.ref "c")) false "a" (Expr.list [Expr.literal "3"])
      = .ok [⟨[⟨"a", Expr.ifE (Expr.ref "c")
                    (Expr.list [Expr.literal "3"])
                    (Expr.list [Expr.literal "1", Expr.literal "2"]),
               VarType.any⟩], []⟩] :=
  on_assignment_conditional_semantics
    [⟨[⟨"a", Expr.list [Expr.literal "1", Expr.literal "2"], VarType.any⟩], []⟩]
    (Expr.ref "c") "a" [Expr.literal "1", Expr.literal "2"] [Expr.literal "3"] rfl

/-- C8 (amended): `simplify` is idempotent on reference-free expressions —
for every expression containing no `ReferenceExpr` at any depth, applying
`simplify` to `simplify`'s result returns it unchanged.  (On expressions with
references the law fails, because the reference branch substitutes the
referenced value without simplifying it: see the counterexample.) -/
theorem simplify_idempotent_on_refFree (env : Env) (e r : Expr)
    (hrf : refFree e = true) (hs : simplify env e = .ok r) :
    simplify env r = .ok r :=
  ((simplify_fixed_all env).1 e r hrf hs).2

/-- Witness for C8: `Concat [Lit "a", Lit "b"]` simplifies to
`Concat [Lit "ab"]`, which simplify then leaves unchanged. -/
theorem simplify_idempotent_on_refFree_witness :
    simplify [] (Expr.concat [Expr.literal "ab"]) = .ok (Expr.concat [Expr.literal "ab"]) :=
  simplify_idempotent_on_refFree [] (Expr.concat [Expr.literal "a", Expr.literal "b"])
    (Expr.concat [Expr.literal "ab"])
    (by simp [refFree, refFreeList])
    (by simp [simplify, simplifyList, mergeLiterals, mergeLoop])

/-- Counterexample for C8 as stated: with `v = ListExpr([Ref w])` and
`w = Literal "a"`, simplifying `Ref v` yields `ListExpr([Ref w])` (the
reference branch inlines the value unsimplified), and simplifying again
yields `ListExpr([Literal "a"])` — so `simplify(simplify(e))` differs from
`simplify(e)` at `e = Ref v`. -/
theorem simplify_not_idempotent_counterexample :
    simplify [("v", Expr.list [Expr.ref "w"]), ("w", Expr.literal "a")] (Expr.ref "v")
      = .ok (Expr.list [Expr.ref "w"]) ∧
    simplify [("v", Expr.list [Expr.ref "w"]), ("w", Expr.literal "a")]
        (Expr.list [Expr.ref "w"])
      = .ok (Expr.list [Expr.literal "a"]) ∧
    Expr.list [Expr.ref "w"] ≠ Expr.list [Expr.literal "a"] := by
  refine ⟨?_, ?_, ?_⟩
  · simp [simplify, get_value, lookupEnv]
  · simp [simplify, simplifyList, get_value, lookupEnv]
  · simp

/-- C10: `handle_children` sets the builder's context to the supplied scope
for the duration of processing the children and restores the previous context
on exit — on the success path and on the error path alike — so the builder's
context after the call (in the returned state, or in the state the raised
error carries) always equals the context before it, whatever the node
handler does. -/
theorem handle_children_restores_context {Node Ctx σ E : Type}
    (handleNode : Node → BuilderState Ctx σ →
      Except (E × BuilderState Ctx σ) (BuilderState Ctx σ))
    (children : List Node) (context : Ctx) (st : BuilderState Ctx σ) :
    (match handle_children handleNode children context st with
     | .ok st' => st'.context
     | .error (_, st') => st'.context) = st.context := by
  unfold handle_children
  cases runNodes handleNode children { st with context := context } with
  | ok st' => rfl
  | error e =>
    match e with
    | (_, st') => rfl

end Bakefile
